import Mathlib

/-!
Shallow embedding, in Lean 4, of the parts of the `percolate_bq_upload`
repository relevant to the behavioural claims under verification:

* `ts_utils.py`   — transport wrapper (`get_object`) and pagination
  collector (`get_all_objects`), with `PercolateAPIError(BaseException)`;
* `metadata_updater.py` — the `MetadataUpdater` class: taxonomy path
  index, field translation, custom-metadata write-back and the
  per-object `update` entry point;
* `campaign_export.py` — `CSVCampaignExport.get_export`, the export
  driver producing one row per campaign plus discovered custom columns.

Python dictionaries are embedded as association lists with Python's
insertion-order semantics (`dinsert` updates an existing key in place,
otherwise appends).  Fallible code is embedded with `Option`/`Except`;
unbounded loops whose termination depends on remote data take explicit
fuel.  Machine-level concerns (HTTP, sleeping, logging, printing) are
abstracted into the per-attempt outcome values the loops consume.
-/

namespace Percolate

/-! ### Python dictionaries as insertion-ordered association lists -/

/-- Lookup of a key in an insertion-ordered association list;
first binding wins (bindings are unique for lists built via `dinsert`). -/
def dlookup {α : Type} : List (String × α) → String → Option α
  | [], _ => none
  | p :: rest, k => if p.1 = k then some p.2 else dlookup rest k

/-- Python `d[k] = v`: replace the value of an existing key in place
(keeping its position), otherwise append the new binding at the end. -/
def dinsert {α : Type} : List (String × α) → String → α → List (String × α)
  | [], k, v => [(k, v)]
  | p :: rest, k, v =>
    if p.1 = k then (k, v) :: rest else p :: dinsert rest k v

/-- Key set of an association list (Python `d.keys()`, as a list). -/
def dkeys {α : Type} (d : List (String × α)) : List String :=
  d.map Prod.fst

/-! ### Python string helpers

`String.splitOn` in core Lean does not reduce inside the kernel, so the
two string operations the claims need are re-embedded structurally over
`List Char`, with Python's semantics (`''.split('|') == ['']`,
`'A|'.split('|') == ['A','']`). -/

/-- Auxiliary accumulator loop for `pySplit`. -/
def pySplitAux (sep : Char) : List Char → List Char → List String
  | [], cur => [String.mk cur.reverse]
  | c :: rest, cur =>
    if c = sep then
      String.mk cur.reverse :: pySplitAux sep rest []
    else
      pySplitAux sep rest (c :: cur)

/-- Python `s.split(sep)` for a one-character separator. -/
def pySplit (s : String) (sep : Char) : List String :=
  pySplitAux sep s.toList []

/-- Python `s.startswith(p)`. -/
def pyStarts (s p : String) : Bool :=
  s.toList.take p.toList.length == p.toList

/-- Lexicographic-by-code-point comparison of character lists. -/
def chListLt : List Char → List Char → Bool
  | [], [] => false
  | [], _ :: _ => true
  | _ :: _, [] => false
  | a :: as, b :: bs =>
    if a.toNat < b.toNat then true
    else if b.toNat < a.toNat then false
    else chListLt as bs

/-- Python `a < b` on strings (lexicographic by code point). -/
def pyStrLt (a b : String) : Bool :=
  chListLt a.toList b.toList

/-! ### Multi-select reverse translation
`MetadataUpdater.create_custom_metadata` / `_create_metadata`
(src/metadata_updater.py, the `key_info['type'] == 'multi-select'`
branch): build `value_for_label` from the field's `ext.values` list,
split the input on `'|'`, and keep the translated value of each segment
whose lookup is not `None`. -/

/-- The `value_for_label` table: `for x in key_info['ext']['values']:
value_for_label[x['label']] = x['value']`. -/
def valueForLabel {α : Type} (vals : List (String × α)) :
    List (String × α) :=
  vals.foldl (fun d x => dinsert d x.1 x.2) []

/-- The multi-select branch: `new_value.split('|')`, then
`[value_for_label.get(x) for x in all_values if value_for_label.get(x)
is not None]`. -/
def multiSelectValue {α : Type} (vals : List (String × α))
    (input : String) : List α :=
  (pySplit input '|').filterMap (fun x => dlookup (valueForLabel vals) x)

/-! ### Taxonomy path index
`MetadataUpdater._create_taxonomy_dict` (src/metadata_updater.py lines
157-171): given the node list returned by the paginated term walk, build
`name_for_id`, then map each node's pipe-joined breadcrumb
(`'|'.join(path_parts)` over `path_ids[1:] + [id]`) to
`{'leaf': id, 'path': path}`.  `name_for_id[x]` raises `KeyError` when
an ancestor is absent from the walk, embedded here as `Option`. -/

/-- A term node as returned by `/v5/term/` (`id`, `name`, `path_ids`,
where `path_ids` starts at the taxonomy root). -/
structure TermNode where
  id : String
  name : String
  path_ids : List String
deriving DecidableEq, Repr

/-- One value of the `id_for_path` dictionary. -/
structure TaxEntry where
  leaf : String
  path : List String
deriving DecidableEq, Repr

/-- First loop of `_create_taxonomy_dict`: `name_for_id[n['id']] =
n['name']` over all nodes. -/
def nameForId (nodes : List TermNode) : List (String × String) :=
  nodes.foldl (fun d n => dinsert d n.id n.name) []

/-- The ancestor-ids-plus-self path of a node: `path = n['path_ids'][1:];
path.append(n['id'])`. -/
def nodePath (n : TermNode) : List String :=
  n.path_ids.drop 1 ++ [n.id]

/-- The breadcrumb of a node: `'|'.join([name_for_id[x] for x in path])`;
`none` when some ancestor id is missing (`KeyError` in the source). -/
def fullPathOf (nodes : List TermNode) (n : TermNode) : Option String :=
  ((nodePath n).mapM (fun x => dlookup (nameForId nodes) x)).map
    (fun parts => String.intercalate "|" parts)

/-- Second loop of `_create_taxonomy_dict`:
`id_for_path[full_path] = {'leaf': n['id'], 'path': path}` over all
nodes, threading the `KeyError` possibility. -/
def buildIdForPath (nodes : List TermNode) :
    List TermNode → List (String × TaxEntry) →
    Option (List (String × TaxEntry))
  | [], acc => some acc
  | n :: rest, acc =>
    match fullPathOf nodes n with
    | none => none
    | some fp =>
      buildIdForPath nodes rest (dinsert acc fp ⟨n.id, nodePath n⟩)

/-- `_create_taxonomy_dict`, as a function of the node list the term
walk returned. -/
def createTaxonomyDict (nodes : List TermNode) :
    Option (List (String × TaxEntry)) :=
  buildIdForPath nodes nodes []

/-! ### Python exception model

`PercolateAPIError` (src/ts_utils.py line 16) subclasses `BaseException`
directly, not `Exception`.  The embedding records, for each error value,
whether it is an `Exception` subclass, which is what an
`except Exception` handler catches. -/

/-- Python exceptions relevant to the embedded code paths.  The `Bool`
returned by `isExceptionSubclass` mirrors whether `except Exception`
catches the error. -/
inductive PyErr
  | valueError
  | percolateAPIError (status : Nat)
  | otherExc (nm : String)
  | otherBase (nm : String)
deriving DecidableEq, Repr

/-- Whether the error derives from `Exception` (and is therefore caught
by an `except Exception` handler).  `PercolateAPIError` derives from
`BaseException` only. -/
def PyErr.isExceptionSubclass : PyErr → Bool
  | .valueError => true
  | .percolateAPIError _ => false
  | .otherExc _ => true
  | .otherBase _ => false

/-! ### Transport wrapper `get_object` (src/ts_utils.py lines 93-152)

Each loop iteration performs one HTTP attempt.  Its observable outcome
is either a parsed body (status < 400 and JSON decodes), an `HTTPError`
with some status ≥ 400 raised by `raise_for_status`, or a
network-level / JSON-decode failure (the
`requests.exceptions.RequestException, ValueError, …` clause) — the
latter two embedded as `Attempt.transient` since the source treats them
identically.  The attempt sequence is indexed by attempt number, which
(unlike the `retry` counter) also advances on 429 retries. -/

/-- Outcome of one HTTP attempt inside `get_object`. -/
inductive Attempt (β : Type)
  | success (body : β)
  | httpErr (status : Nat)
  | transient
deriving DecidableEq, Repr

/-- Result of a `get_object` call. -/
inductive GetResult (β : Type)
  | ok (body : β)
  | apiErr (status : Nat)
  | bodyErr
  | reRaise
  | typeErr
  | fuelOut
deriving DecidableEq, Repr

/-- The `while retry < 10` loop of `get_object`, plus the final
`if 'errors' in result` check.  `i` is the attempt index, `retry` the
source's counter.  When the loop exits with `retry = 10` and no
successful attempt, `result` is still `None` and `'errors' in result`
raises `TypeError` (`GetResult.typeErr`).  A non-429 4xx raises
`PercolateAPIError` immediately; a 429 retries without touching
`retry`; any other `HTTPError` falls through the first `except` branch
silently and only bumps `retry`; a transient failure re-raises the
underlying error (`GetResult.reRaise`) once `retry == 9`. -/
def getObjectLoop {β : Type} (att : Nat → Attempt β) (hasErrs : β → Bool) :
    Nat → Nat → Nat → GetResult β
  | 0, _, _ => .fuelOut
  | fuel + 1, i, retry =>
    if retry < 10 then
      match att i with
      | .success b => if hasErrs b then .bodyErr else .ok b
      | .httpErr s =>
        if 400 ≤ s ∧ s < 500 then
          if s = 429 then getObjectLoop att hasErrs fuel (i + 1) retry
          else .apiErr s
        else getObjectLoop att hasErrs fuel (i + 1) (retry + 1)
      | .transient =>
        if retry = 9 then .reRaise
        else getObjectLoop att hasErrs fuel (i + 1) (retry + 1)
    else .typeErr

/-- `get_object`, as a function of the attempt outcomes. -/
def getObject {β : Type} (att : Nat → Attempt β) (hasErrs : β → Bool)
    (fuel : Nat) : GetResult β :=
  getObjectLoop att hasErrs fuel 0 0

/-! ### Pagination collector `get_all_objects`
(src/ts_utils.py lines 48-89): pages through an endpoint with
`offset`/`limit`, re-reading `total` from every page's
pagination/meta block, extending `result` with each page's `data`, and
finishing once `offset >= total` after the increment.  The page at a
given offset is an input function; fuel bounds the loop because a
server reporting ever-growing totals never terminates it. -/

/-- One page of a paginated response: the reported `total` and the
`data` array. -/
structure Page (α : Type) where
  total : Nat
  data : List α
deriving DecidableEq, Repr

/-- The inner `while offset < total` loop of `get_all_objects`, entered
with `offset = 0`.  Each pass fetches the page at `offset`, re-reads
`total` from it, appends its data, advances `offset` by `limit` and
stops exactly when the new offset reaches the page's reported total. -/
def pageLoop {α : Type} (fetch : Nat → Page α) (limit : Nat) :
    Nat → Nat → List α → Option (List α)
  | 0, _, _ => none
  | fuel + 1, offset, acc =>
    let pg := fetch offset
    let acc' := acc ++ pg.data
    let offset' := offset + limit
    if pg.total ≤ offset' then some acc'
    else pageLoop fetch limit fuel offset' acc'

/-- `get_all_objects`: with `page_limit = 0` the inner loop is never
entered (`offset < total` is `0 < 0`) and the outer `while not
completed` loop spins forever, embedded as `none`. -/
def getAllObjects {α : Type} (fetch : Nat → Page α) (limit fuel : Nat) :
    Option (List α) :=
  if limit = 0 then none else pageLoop fetch limit fuel 0 []

/-- Modelled from the spec (§4.2 sentence under verification in C8):
pages are fetched at offsets `0, limit, 2·limit, …` and fetching stops
as soon as `offset ≥ total` where `total` is read from the FIRST page's
pagination metadata; at least one page is always fetched. -/
def collectAllSpecFirstTotal {α : Type} (fetch : Nat → Page α)
    (limit : Nat) : List α :=
  let t := (fetch 0).total
  let pages := max 1 ((t + limit - 1) / limit)
  ((List.range pages).map (fun i => (fetch (i * limit)).data)).flatten

/-! ### Term name/path resolution with caching
(`MetadataUpdater._get_name_path_ids_for_term_id`, lines 59-66, and
`_get_full_path_for_term`, lines 68-81).  The remote lookup is an input
function returning either a term object or an exception. -/

/-- A term object as consumed by `_get_name_path_ids_for_term_id`. -/
structure TermObj where
  nm : String
  path_ids : List String
deriving DecidableEq, Repr

/-- `_get_name_path_ids_for_term_id`: returns
`(term['name'], term['path_ids'][1:])`; a `PercolateAPIError` from the
lookup is caught and yields `('', [])`; any other exception
propagates. -/
def getNamePathIdsForTermId (resp : Except PyErr TermObj) :
    Except PyErr (String × List String) :=
  match resp with
  | .ok t => .ok (t.nm, t.path_ids.drop 1)
  | .error e =>
    match e with
    | .percolateAPIError _ => .ok ("", [])
    | _ => .error e

/-- The two memoisation caches of `MetadataUpdater` used by
`_get_full_path_for_term`. -/
structure TermCaches where
  name_for_term : List (String × String)
  full_path_for_term : List (String × String)
deriving DecidableEq, Repr

/-- The `for n in path` loop of `_get_full_path_for_term`: resolve and
cache the name of every ancestor id not already in `name_for_term`. -/
def fillAncestorNames (look : String → Except PyErr TermObj)
    (st : TermCaches) : List String → Except PyErr TermCaches
  | [] => .ok st
  | n :: rest =>
    if (dlookup st.name_for_term n).isSome then
      fillAncestorNames look st rest
    else
      match getNamePathIdsForTermId (look n) with
      | .error e => .error e
      | .ok r =>
        fillAncestorNames look
          ⟨dinsert st.name_for_term n r.1, st.full_path_for_term⟩ rest

/-- `_get_full_path_for_term`: on a cache miss, resolve the term's name
and ancestor path, cache ancestor names, build
`'|'.join([name_for_term.get(x, '') for x in path + [term_uid]])` and
memoise it. -/
def getFullPathForTerm (look : String → Except PyErr TermObj)
    (st : TermCaches) (term_uid : String) :
    Except PyErr (String × TermCaches) :=
  match dlookup st.full_path_for_term term_uid with
  | some fp => .ok (fp, st)
  | none =>
    match getNamePathIdsForTermId (look term_uid) with
    | .error e => .error e
    | .ok np =>
      let st1 : TermCaches :=
        ⟨dinsert st.name_for_term term_uid np.1, st.full_path_for_term⟩
      match fillAncestorNames look st1 np.2 with
      | .error e => .error e
      | .ok st2 =>
        let full := np.2 ++ [term_uid]
        let parts := full.map (fun x => (dlookup st2.name_for_term x).getD "")
        let fp := String.intercalate "|" parts
        .ok (fp, ⟨st2.name_for_term, dinsert st2.full_path_for_term term_uid fp⟩)

/-! ### Custom-metadata write-back
(`MetadataUpdater.update_custom_metadata`, src/metadata_updater.py lines
448-485).  The function fetches the object's existing metadata records
fresh on every call (no instance cache is consulted); the embedding
takes that per-call existing state as the `existing` argument, and the
already-translated `new_metadata` dictionary (the result of
`_create_metadata`) as `newMd`.  Output is the list of PUT/POST
requests issued. -/

/-- One existing metadata record (`/v5/metadata/` response entry). -/
structure MDRecord (α : Type) where
  id : String
  schema_id : String
  ext : List (String × α)
deriving DecidableEq, Repr

/-- The body of a metadata PUT/POST request. -/
structure MDPayload (α : Type) where
  schema_id : String
  object_id : String
  ext : List (String × α)
deriving DecidableEq, Repr

/-- A write issued by `update_custom_metadata`:
`put_object('/v5/metadata/{m_id}', payload)` or
`post_object('/v5/metadata/', payload)`. -/
inductive MDRequest (α : Type)
  | put (metadata_id : String) (payload : MDPayload α)
  | post (payload : MDPayload α)
deriving DecidableEq, Repr

/-- Schema id a request targets (its payload's `schema_id`). -/
def MDRequest.schemaId {α : Type} : MDRequest α → String
  | .put _ p => p.schema_id
  | .post p => p.schema_id

/-- `custom_metadata`: existing records whose schema is neither the
built-in asset metadata schema nor the usage-rights schema. -/
def customRecords {α : Type} (assetS usageS : String)
    (existing : List (MDRecord α)) : List (MDRecord α) :=
  existing.filter (fun x => x.schema_id != assetS && x.schema_id != usageS)

/-- First loop over `custom_metadata`: `payloads[x['schema_id']] =
x['ext']`. -/
def payloadsOfExisting {α : Type} (custom : List (MDRecord α)) :
    List (String × List (String × α)) :=
  custom.foldl (fun d x => dinsert d x.schema_id x.ext) []

/-- First loop over `custom_metadata`:
`metadata_id_for_schema[x['schema_id']] = x['id']`. -/
def metadataIdForSchema {α : Type} (custom : List (MDRecord α)) :
    List (String × String) :=
  custom.foldl (fun d x => dinsert d x.schema_id x.id) []

/-- Inner loop `for key, new_value in fields_dict.items():
payloads[schema_id][key] = new_value` applied to one schema's ext. -/
def mergeFields {α : Type} (ext : List (String × α))
    (fields : List (String × α)) : List (String × α) :=
  fields.foldl (fun e kv => dinsert e kv.1 kv.2) ext

/-- Second loop, over `new_metadata.items()`: ensure the schema has a
payload (`{}` if absent) and overwrite the supplied keys. -/
def applyNewMetadata {α : Type}
    (payloads newMd : List (String × List (String × α))) :
    List (String × List (String × α)) :=
  newMd.foldl
    (fun pl sf => dinsert pl sf.1 (mergeFields ((dlookup pl sf.1).getD []) sf.2))
    payloads

/-- Final loop over `payloads.items()`: PUT by the existing record id
when the schema had a record (skipping schemas absent from
`new_metadata`), POST otherwise. -/
def emitRequests {α : Type} (ids : List (String × String))
    (newMd : List (String × List (String × α))) (object_uid : String)
    (payloads : List (String × List (String × α))) : List (MDRequest α) :=
  payloads.filterMap (fun se =>
    match dlookup ids se.1 with
    | some m_id =>
      if (dlookup newMd se.1).isSome then
        some (.put m_id ⟨se.1, object_uid, se.2⟩)
      else none
    | none => some (.post ⟨se.1, object_uid, se.2⟩))

/-- `update_custom_metadata`, as the list of requests it issues given
the freshly fetched `existing` records and the translated `newMd`. -/
def updateCustomMetadata {α : Type} (assetS usageS object_uid : String)
    (existing : List (MDRecord α))
    (newMd : List (String × List (String × α))) : List (MDRequest α) :=
  let custom := customRecords assetS usageS existing
  emitRequests (metadataIdForSchema custom) newMd object_uid
    (applyNewMetadata (payloadsOfExisting custom) newMd)

/-- The requests of a call that target one schema. -/
def requestsForSchema {α : Type} (sid : String)
    (reqs : List (MDRequest α)) : List (MDRequest α) :=
  reqs.filter (fun r => r.schemaId == sid)

/-! ### Per-object entry point `MetadataUpdater.update`
(src/metadata_updater.py lines 642-656).  The two sub-operations
(`update_metadata` for standard fields on assets, and
`update_custom_metadata`) are inputs: each is the trace of remote
requests it issues together with its outcome.  The `try` block wraps
both; its handler is `except Exception`, so only errors with
`isExceptionSubclass = true` are caught, printed and turned into
`False`.  The `ValueError` guard runs before the `try` block and before
any remote request. -/

/-- `MetadataUpdater.update`.  Returns the concatenated request trace
and either the boolean result or the propagated exception.  The
`tag_path_terms` flag is only forwarded to the custom sub-operation and
is therefore part of the `customOp` input. -/
def update {ε : Type} (standard custom : Bool) (object_uid : String)
    (stdOp customOp : List ε × Except PyErr Unit) :
    List ε × Except PyErr Bool :=
  if !(standard || custom) then ([], .error .valueError)
  else
    let s := if standard && pyStarts object_uid "asset:" then stdOp
             else ([], .ok ())
    match s.2 with
    | .error e =>
      (s.1, if e.isExceptionSubclass then .ok false else .error e)
    | .ok _ =>
      let c := if custom then customOp else ([], .ok ())
      match c.2 with
      | .error e =>
        (s.1 ++ c.1, if e.isExceptionSubclass then .ok false else .error e)
      | .ok _ => (s.1 ++ c.1, .ok true)

/-- Whether an `except Exception` handler would stop a sub-operation's
outcome from escaping: `true` when the operation succeeded or failed
with an `Exception`-derived error. -/
def errCaught : Except PyErr Unit → Bool
  | .error e => e.isExceptionSubclass
  | .ok _ => true

/-! ### Export driver `CSVCampaignExport.get_export`
(src/campaign_export.py lines 167-252).  The remote work per campaign
(field formatting through the `format_function` table and
`get_custom_metadata`) is summarised in the `Camp` input: `std` is the
formatted standard-field dictionary (whose keys are the `header_for`
labels) and `md` the custom-metadata dictionary the campaign yields.
The driver loop appends one row dictionary per campaign, discovers new
custom columns in insertion order, and — because of the
`if len(all_data_rows) % 300 == 0: … break` block — leaves the loop as
soon as 300 rows have been collected. -/

/-- Per-campaign input of the export loop. -/
structure Camp where
  id : String
  std : List (String × Option String)
  md : List (String × Option String)
deriving DecidableEq, Repr

/-- `self.header`: the ordered standard CSV labels. -/
def stdHeader : List String :=
  ["Title", "Description", "License ID", "Start At", "End At", "Platforms",
   "Budget", "Campaign ID", "Parent Campaign ID", "Terms", "Topics",
   "Thumbnail Asset", "Created At", "Updated At"]

/-- The values of `self.header_for`, in its insertion order: the labels
under which `data_dict` stores the formatted standard fields. -/
def headerForLabels : List String :=
  ["Campaign ID", "Title", "Description", "Terms", "Topics", "License ID",
   "Start At", "End At", "Platforms", "Budget", "Thumbnail Asset",
   "Created At", "Updated At", "Parent Campaign ID"]

/-- Python `d.pop(k, None)`: drop the binding of `k` if present. -/
def dpop {α : Type} (d : List (String × α)) (k : String) :
    List (String × α) :=
  d.filter (fun p => p.1 != k)

/-- The campaign's metadata dictionary after
`camp_md.pop('Topics: Topics', None)`. -/
def poppedMd (c : Camp) : List (String × Option String) :=
  dpop c.md "Topics: Topics"

/-- The row dictionary of one campaign: `data_dict.update(camp_md)`
applied to the formatted standard fields. -/
def rowOf (c : Camp) : List (String × Option String) :=
  (poppedMd c).foldl (fun d kv => dinsert d kv.1 kv.2) c.std

/-- Header discovery for one campaign: `for md_label in camp_md.keys():
if md_label not in all_data_headers: all_data_headers.append(...)`. -/
def addLabels (headers : List String) (md : List (String × Option String)) :
    List String :=
  md.foldl (fun h kv => if kv.1 ∈ h then h else h ++ [kv.1]) headers

/-- The `for campaign in all_campaigns` loop of `get_export`, including
the `break` taken when `len(all_data_rows) % 300 == 0` right after a row
is appended. -/
def exportLoop :
    List Camp → List (List (String × Option String)) → List String →
    List (List (String × Option String)) × List String
  | [], dicts, headers => (dicts, headers)
  | c :: rest, dicts, headers =>
    let dicts' := dicts ++ [rowOf c]
    let headers' := addLabels headers (poppedMd c)
    if dicts'.length % 300 = 0 then (dicts', headers')
    else exportLoop rest dicts' headers'

/-- Sort key of `all_data_dicts.sort(key=lambda x:
x[self.header_for['id']])`: the row's `'Campaign ID'` value.  The
source indexes the dictionary directly; rows always carry the key, and
the embedding totalises the missing/None cases with `""`. -/
def rowSortKey (dd : List (String × Option String)) : String :=
  ((dlookup dd "Campaign ID").getD none).getD ""

/-- Stable insertion of one element into a key-sorted list (earlier
elements stay before later ones with an equal key, as with Python's
stable `list.sort`). -/
def insertSorted {α : Type} (key : α → String) (x : α) :
    List α → List α
  | [] => [x]
  | y :: rest =>
    if pyStrLt (key y) (key x) then y :: insertSorted key x rest
    else x :: y :: rest

/-- Stable sort by a string key. -/
def sortByKeyStr {α : Type} (key : α → String) : List α → List α
  | [] => []
  | x :: rest => insertSorted key x (sortByKeyStr key rest)

/-- `get_export` without an output directory: the in-memory
`(all_data_headers, all_data_dicts)` pair, rows sorted by campaign
id. -/
def getExport (camps : List Camp) :
    List String × List (List (String × Option String)) :=
  let r := exportLoop camps [] stdHeader
  (r.2, sortByKeyStr rowSortKey r.1)

/-- Lines 231-234 of src/campaign_export.py: `campaign_data` rows,
`[x.get(y) for y in all_data_headers]` for each row dictionary — a
missing column renders as an empty cell (`none`). -/
def campaignData (headers : List String)
    (dicts : List (List (String × Option String))) :
    List (List (Option String)) :=
  dicts.map (fun x => headers.map (fun y => (dlookup x y).getD none))

/-! ## Dictionary lemmas -/

theorem dlookup_dinsert_self {α : Type} (d : List (String × α)) (k : String)
    (v : α) : dlookup (dinsert d k v) k = some v := by
  induction d with
  | nil => simp [dinsert, dlookup]
  | cons p rest ih =>
    by_cases h : p.1 = k
    · simp [dinsert, dlookup, h]
    · simp [dinsert, dlookup, h, ih]

theorem dlookup_dinsert_ne {α : Type} (d : List (String × α)) (k k' : String)
    (v : α) (h : k' ≠ k) : dlookup (dinsert d k' v) k = dlookup d k := by
  induction d with
  | nil => simp [dinsert, dlookup, h]
  | cons p rest ih =>
    by_cases hp : p.1 = k'
    · simp [dinsert, dlookup, hp, h]
    · by_cases hk : p.1 = k
      · simp [dinsert, dlookup, hp, hk, Ne.symm h]
      · simp [dinsert, dlookup, hp, hk, ih]

theorem dlookup_eq_none {α : Type} (d : List (String × α)) (k : String)
    (h : k ∉ dkeys d) : dlookup d k = none := by
  induction d with
  | nil => simp [dlookup]
  | cons p rest ih =>
    simp only [dkeys, List.map_cons, List.mem_cons] at h
    push_neg at h
    simp only [dlookup]
    rw [if_neg (fun hh => h.1 hh.symm)]
    exact ih (by simpa [dkeys] using h.2)

theorem mem_dkeys_dinsert {α : Type} (d : List (String × α))
    (k k' : String) (v : α) :
    k ∈ dkeys (dinsert d k' v) ↔ k ∈ dkeys d ∨ k = k' := by
  induction d with
  | nil => simp [dinsert, dkeys]
  | cons p rest ih =>
    by_cases hp : p.1 = k'
    · subst hp
      simp [dinsert, dkeys]
      tauto
    · have ih' : k ∈ List.map Prod.fst (dinsert rest k' v) ↔
          k ∈ List.map Prod.fst rest ∨ k = k' := by
        simpa [dkeys] using ih
      simp only [dinsert, if_neg hp, dkeys, List.map_cons, List.mem_cons]
      rw [ih']
      tauto

theorem dkeys_nodup_dinsert {α : Type} (d : List (String × α))
    (k : String) (v : α) (h : (dkeys d).Nodup) :
    (dkeys (dinsert d k v)).Nodup := by
  induction d with
  | nil => simp [dinsert, dkeys]
  | cons p rest ih =>
    simp only [dkeys, List.map_cons, List.nodup_cons] at h
    by_cases hp : p.1 = k
    · subst hp
      have hrw : dinsert (p :: rest) p.1 v = (p.1, v) :: rest := by
        simp [dinsert]
      rw [hrw]
      simp only [dkeys, List.map_cons, List.nodup_cons]
      exact h
    · simp only [dinsert, if_neg hp, dkeys, List.map_cons, List.nodup_cons]
      refine ⟨fun hmem => ?_, by simpa [dkeys] using ih (by simpa [dkeys] using h.2)⟩
      rcases (mem_dkeys_dinsert rest p.1 k v).1 (by simpa [dkeys] using hmem) with h1 | h1
      · exact h.1 (by simpa [dkeys] using h1)
      · exact hp h1

/-! ## C5 -/

/-- Claim C5: for a multi-select field whose label→value table is
`{A:1, B:2, C:3}`, reverse translation of `"A|B"` yields `[1,2]`, and an
unmatched label is dropped silently, so `"A|B|Z"` also yields `[1,2]`
(split on `|`, map through the table, drop unmatched segments). -/
theorem multi_select_reverse_translation :
    multiSelectValue [("A", (1 : Nat)), ("B", 2), ("C", 3)] "A|B" = [1, 2] ∧
    multiSelectValue [("A", (1 : Nat)), ("B", 2), ("C", 3)] "A|B|Z" = [1, 2] ∧
    multiSelectValue [("A", (1 : Nat)), ("B", 2), ("C", 3)] "Z" = [] := by
  decide

/-! ## C4 -/

/-- Claim C4 counterexample: in the taxonomy walk
`[t1 "X" under root, t2 "X" under root]`, both terms produce the
breadcrumb `"X"`; `_create_taxonomy_dict` maps `"X"` to the later term,
so resolving the breadcrumb the index produced for `t1` returns leaf
`"t2" ≠ "t1"`, refuting the round-trip for every term. -/
theorem taxonomy_roundtrip_counterexample :
    fullPathOf [⟨"t1", "X", ["root"]⟩, ⟨"t2", "X", ["root"]⟩]
        ⟨"t1", "X", ["root"]⟩ = some "X" ∧
    (⟨"t1", "X", ["root"]⟩ : TermNode) ∈
        [(⟨"t1", "X", ["root"]⟩ : TermNode), ⟨"t2", "X", ["root"]⟩] ∧
    (createTaxonomyDict [⟨"t1", "X", ["root"]⟩, ⟨"t2", "X", ["root"]⟩]).bind
        (fun d => (dlookup d "X").map TaxEntry.leaf) = some "t2" ∧
    ("t2" : String) ≠ "t1" := by
  decide

theorem buildIdForPath_untouched (nodes : List TermNode)
    (l : List TermNode) :
    ∀ (acc d : List (String × TaxEntry)) (k : String),
      buildIdForPath nodes l acc = some d →
      (∀ m ∈ l, fullPathOf nodes m ≠ some k) →
      dlookup d k = dlookup acc k := by
  induction l with
  | nil =>
    intro acc d k h _
    simp only [buildIdForPath, Option.some.injEq] at h
    rw [h]
  | cons n rest ih =>
    intro acc d k h hm
    simp only [buildIdForPath] at h
    cases hfp : fullPathOf nodes n with
    | none => rw [hfp] at h; exact absurd h (by simp)
    | some fp =>
      rw [hfp] at h
      have hne : fp ≠ k := fun hkk => hm n (by simp) (hkk ▸ hfp)
      rw [ih _ _ _ h (fun m hm' => hm m (List.mem_cons_of_mem _ hm'))]
      exact dlookup_dinsert_ne _ _ _ _ hne

theorem buildIdForPath_lookup (nodes : List TermNode) (n : TermNode)
    (fp : String) (hfp : fullPathOf nodes n = some fp)
    (l : List TermNode) :
    ∀ (acc d : List (String × TaxEntry)),
      buildIdForPath nodes l acc = some d →
      n ∈ l →
      (∀ m ∈ l, fullPathOf nodes m = some fp → m = n) →
      dlookup d fp = some ⟨n.id, nodePath n⟩ := by
  induction l with
  | nil => intro acc d _ hn _; exact absurd hn (by simp)
  | cons m rest ih =>
    intro acc d h hn huniq
    simp only [buildIdForPath] at h
    cases hm : fullPathOf nodes m with
    | none => rw [hm] at h; exact absurd h (by simp)
    | some fpm =>
      rw [hm] at h
      by_cases hmn : m = n
      · subst hmn
        have hfpm : fpm = fp := by
          rw [hfp] at hm
          exact Option.some_inj.1 hm.symm
        subst hfpm
        by_cases hnr : m ∈ rest
        · exact ih _ _ h hnr
            (fun m' hm' hfp' => huniq m' (List.mem_cons_of_mem _ hm') hfp')
        · have hnone : ∀ m' ∈ rest, fullPathOf nodes m' ≠ some fpm := by
            intro m' hm' hfp'
            exact hnr ((huniq m' (List.mem_cons_of_mem _ hm') hfp') ▸ hm')
          rw [buildIdForPath_untouched nodes rest _ _ _ h hnone]
          exact dlookup_dinsert_self _ _ _
      · have hnrest : n ∈ rest := by
          rcases List.mem_cons.1 hn with h1 | h1
          · exact absurd h1.symm hmn
          · exact h1
        exact ih _ _ h hnrest
          (fun m' hm' hfp' => huniq m' (List.mem_cons_of_mem _ hm') hfp')

/-- Claim C4, amended: for a taxonomy path index built over a walk, and
for every term of the walk whose pipe-delimited breadcrumb is not also
produced by another term of that walk, resolving the breadcrumb the
index produced for that term returns that term's id as the leaf.  Other
terms of the walk may collide among themselves; only the term at hand
needs a unique breadcrumb.  (The unamended claim fails for colliding
terms: the index keeps only the last such term — see the
counterexample.) -/
theorem taxonomy_roundtrip_amended (nodes : List TermNode)
    (d : List (String × TaxEntry)) (n : TermNode) (fp : String)
    (hd : createTaxonomyDict nodes = some d)
    (hn : n ∈ nodes)
    (hfp : fullPathOf nodes n = some fp)
    (huniq : ∀ m ∈ nodes, fullPathOf nodes m = some fp → m = n) :
    (dlookup d fp).map TaxEntry.leaf = some n.id := by
  rw [buildIdForPath_lookup nodes n fp hfp nodes [] d hd hn huniq]
  rfl

/-- Witness for the amended C4 theorem: a walk holding a colliding pair
(`t1`, `t2`, both breadcrumb `"X"`) plus the unique-breadcrumb term
`t3`; the round-trip holds for `t3`. -/
theorem taxonomy_roundtrip_amended_witness :
    (dlookup [("X", (⟨"t2", ["t2"]⟩ : TaxEntry)), ("B", ⟨"t3", ["t3"]⟩)]
        "B").map TaxEntry.leaf = some "t3" :=
  taxonomy_roundtrip_amended
    [⟨"t1", "X", ["root"]⟩, ⟨"t2", "X", ["root"]⟩, ⟨"t3", "B", ["root"]⟩]
    [("X", ⟨"t2", ["t2"]⟩), ("B", ⟨"t3", ["t3"]⟩)]
    ⟨"t3", "B", ["root"]⟩ "B" (by decide) (by decide) (by decide)
    (by decide)

/-! ## C9 -/

/-- Claim C9: a term id whose remote lookup fails with a
`PercolateAPIError` (e.g. a 404 response) resolves to an empty name and
an empty ancestor path instead of raising, and `_get_full_path_for_term`
then produces (and memoises) a blank breadcrumb for that term, so the
surrounding breadcrumb construction and export continue with a blank
label rather than aborting. -/
theorem term_404_blank_label (look : String → Except PyErr TermObj)
    (st : TermCaches) (term_uid : String) (s : Nat)
    (h404 : look term_uid = .error (.percolateAPIError s))
    (hmiss : dlookup st.full_path_for_term term_uid = none) :
    getNamePathIdsForTermId (look term_uid) = .ok ("", []) ∧
    getFullPathForTerm look st term_uid =
      .ok ("", ⟨dinsert st.name_for_term term_uid "",
                dinsert st.full_path_for_term term_uid ""⟩) := by
  constructor
  · rw [h404]
    rfl
  · unfold getFullPathForTerm
    rw [hmiss, h404]
    simp only [getNamePathIdsForTermId, fillAncestorNames]
    simp only [List.nil_append, List.map_cons, List.map_nil]
    rw [dlookup_dinsert_self]
    simp only [Option.getD_some]
    have hint : String.intercalate "|" [""] = "" := by decide
    rw [hint]

/-- Witness for C9 at a concrete lookup that always 404s and empty
caches. -/
theorem term_404_blank_label_witness :
    getNamePathIdsForTermId
        ((fun _ => Except.error (PyErr.percolateAPIError 404) :
          String → Except PyErr TermObj) "term:9") = .ok ("", []) ∧
    getFullPathForTerm
        (fun _ => Except.error (PyErr.percolateAPIError 404)) ⟨[], []⟩
        "term:9" =
      .ok ("", ⟨[("term:9", "")], [("term:9", "")]⟩) :=
  term_404_blank_label (fun _ => .error (.percolateAPIError 404))
    ⟨[], []⟩ "term:9" 404 rfl rfl

/-! ## C2 -/

/-- Claim C2 counterexample: `PercolateAPIError` subclasses
`BaseException`, not `Exception`, so the `except Exception` handler in
`MetadataUpdater.update` does not catch it: a `PercolateAPIError`
raised by the custom-metadata update propagates to the caller instead of
being converted to `False`. -/
theorem update_catch_counterexample :
    (update true true "campaign:1"
        (([], .ok ()) : List Unit × Except PyErr Unit)
        ([], .error (.percolateAPIError 404))).2
      = .error (.percolateAPIError 404) ∧
    (Except.error (PyErr.percolateAPIError 404) : Except PyErr Bool)
      ≠ .ok false := by
  constructor
  · rfl
  · intro h
    cases h

/-- Claim C2, amended: with standard or custom enabled, any exception
deriving from Python's `Exception` raised while performing the standard
or the custom metadata update is caught and converted to the return
value `False` (`True` when the executed sub-operations succeed), so a
batch continues past the failed object — but `PercolateAPIError`, which
derives from `BaseException` only, escapes the `except Exception`
handler and propagates to the caller. -/
theorem update_exception_handling_amended {ε : Type}
    (standard custom : Bool) (object_uid : String)
    (stdOp customOp : List ε × Except PyErr Unit) (e : PyErr) (s : Nat)
    (hflag : (standard || custom) = true) :
    ((standard && pyStarts object_uid "asset:") = true →
      stdOp.2 = .error e → e.isExceptionSubclass = true →
      (update standard custom object_uid stdOp customOp).2 = .ok false) ∧
    (stdOp.2 = .ok () → custom = true →
      customOp.2 = .error e → e.isExceptionSubclass = true →
      (update standard custom object_uid stdOp customOp).2 = .ok false) ∧
    (stdOp.2 = .ok () → customOp.2 = .ok () →
      (update standard custom object_uid stdOp customOp).2 = .ok true) ∧
    (stdOp.2 = .ok () → custom = true →
      customOp.2 = .error (.percolateAPIError s) →
      (update standard custom object_uid stdOp customOp).2 =
        .error (.percolateAPIError s)) := by
  have h0 : (!(standard || custom)) = false := by rw [hflag]; rfl
  refine ⟨?_, ?_, ?_, ?_⟩
  · intro hsa hst he
    unfold update
    rw [h0]
    simp only [Bool.false_eq_true, if_false]
    rw [if_pos hsa]
    simp [hst, he]
  · intro hstd hc hct he
    unfold update
    rw [h0]
    simp only [Bool.false_eq_true, if_false]
    by_cases hsa : (standard && pyStarts object_uid "asset:") = true <;>
      simp [hsa, hstd, hc, hct, he]
  · intro hstd hcust
    unfold update
    rw [h0]
    simp only [Bool.false_eq_true, if_false]
    by_cases hsa : (standard && pyStarts object_uid "asset:") = true <;>
      by_cases hc : custom = true <;>
        simp [hsa, hc, hstd, hcust]
  · intro hstd hc hct
    unfold update
    rw [h0]
    simp only [Bool.false_eq_true, if_false]
    by_cases hsa : (standard && pyStarts object_uid "asset:") = true <;>
      simp [hsa, hc, hstd, hct, PyErr.isExceptionSubclass]

/-- Witness for the amended C2 theorem: a `KeyError`-style exception in
the standard update converts to `False`; one in the custom update also
converts to `False`; a clean run returns `True`; a `PercolateAPIError`
propagates. -/
theorem update_exception_handling_amended_witness :
    (update true true "asset:1"
        (([], .error (.otherExc "KeyError")) :
          List Unit × Except PyErr Unit)
        ([], .ok ())).2 = .ok false ∧
    (update true true "campaign:1"
        (([], .ok ()) : List Unit × Except PyErr Unit)
        ([], .error (.otherExc "KeyError"))).2 = .ok false ∧
    (update true true "asset:1"
        (([], .ok ()) : List Unit × Except PyErr Unit)
        ([], .ok ())).2 = .ok true ∧
    (update true true "asset:1"
        (([], .ok ()) : List Unit × Except PyErr Unit)
        ([], .error (.percolateAPIError 404))).2 =
      .error (.percolateAPIError 404) :=
  ⟨(update_exception_handling_amended true true "asset:1"
      ([], .error (.otherExc "KeyError")) ([], .ok ())
      (.otherExc "KeyError") 404 (by decide)).1 (by decide) rfl (by decide),
   (update_exception_handling_amended true true "campaign:1"
      ([], .ok ()) ([], .error (.otherExc "KeyError"))
      (.otherExc "KeyError") 404 (by decide)).2.1 rfl rfl rfl (by decide),
   (update_exception_handling_amended true true "asset:1"
      ([], .ok ()) ([], .ok ()) (.otherExc "KeyError") 404
      (by decide)).2.2.1 rfl rfl,
   (update_exception_handling_amended true true "asset:1"
      ([], .ok ()) ([], .error (.percolateAPIError 404))
      (.otherExc "KeyError") 404 (by decide)).2.2.2 rfl rfl rfl⟩

/-! ## C10 -/

theorem conv_ne_valueError (e : PyErr) :
    (if e.isExceptionSubclass then (Except.ok false : Except PyErr Bool)
     else .error e) ≠ .error .valueError := by
  cases he : e.isExceptionSubclass
  · simp only [Bool.false_eq_true, if_false]
    intro h
    injection h with h1
    subst h1
    simp [PyErr.isExceptionSubclass] at he
  · simp

/-- Claim C10: `MetadataUpdater.update` with `standard=False` and
`custom=False` raises `ValueError` before issuing any remote request
(the guard precedes the `try` block and both sub-operations, so the
request trace is empty); for every other flag combination no
`ValueError` is raised — sub-operation errors are either converted to
`False` (Exception subclasses, `ValueError` included) or propagate as
non-`ValueError` exceptions. -/
theorem update_both_flags_valueerror {ε : Type} (object_uid : String)
    (stdOp customOp : List ε × Except PyErr Unit) :
    update false false object_uid stdOp customOp =
      ([], .error .valueError) ∧
    (∀ (standard custom : Bool), (standard || custom) = true →
      (update standard custom object_uid stdOp customOp).2 ≠
        .error PyErr.valueError) := by
  constructor
  · rfl
  · intro standard custom hflag
    have h0 : (!(standard || custom)) = false := by rw [hflag]; rfl
    unfold update
    rw [h0]
    simp only [Bool.false_eq_true, if_false]
    by_cases hsa : (standard && pyStarts object_uid "asset:") = true
    · rw [if_pos hsa]
      cases hst : stdOp.2 with
      | error e => simpa [hst] using conv_ne_valueError e
      | ok u =>
        simp only [hst]
        by_cases hc : custom = true
        · rw [if_pos hc]
          cases hct : customOp.2 with
          | error e => simpa [hct] using conv_ne_valueError e
          | ok u => simp [hct]
        · rw [if_neg hc]
          simp
    · rw [if_neg hsa]
      by_cases hc : custom = true
      · rw [if_pos hc]
        cases hct : customOp.2 with
        | error e => simpa [hct] using conv_ne_valueError e
        | ok u => simp [hct]
      · rw [if_neg hc]
        simp

/-- Witness for C10: the both-flags-false call returns the `ValueError`
with an empty request trace; an enabled combination does not raise
`ValueError`. -/
theorem update_both_flags_valueerror_witness :
    update false false "asset:1"
        (([], .ok ()) : List Unit × Except PyErr Unit) ([], .ok ()) =
      ([], .error .valueError) ∧
    (update true false "asset:1"
        (([], .ok ()) : List Unit × Except PyErr Unit) ([], .ok ())).2 ≠
      .error PyErr.valueError :=
  ⟨(update_both_flags_valueerror "asset:1" ([], .ok ()) ([], .ok ())).1,
   (update_both_flags_valueerror "asset:1" ([], .ok ()) ([], .ok ())).2
     true false (by decide)⟩

/-! ## C3 -/

/-- Claim C3 counterexample: when every attempt fails with an HTTP 500
(a non-4xx HTTP error), the first `except HTTPError` clause catches the
error, its 4xx condition is false, the body falls through silently and
only `retry` advances; after the 10-attempt budget `result` is still
`None` and the final `'errors' in result` membership test raises
`TypeError` — the underlying transport error is NOT re-raised. -/
theorem get_object_5xx_counterexample :
    getObject (fun _ => (Attempt.httpErr 500 : Attempt Unit))
        (fun _ => false) 12 = .typeErr ∧
    (GetResult.typeErr : GetResult Unit) ≠ .reRaise := by
  decide

theorem getObjectLoop_transient {β : Type} (att : Nat → Attempt β)
    (hasErrs : β → Bool) :
    ∀ (k fuel i retry : Nat), (∀ j, att j = .transient) →
      retry + k = 9 → k + 1 ≤ fuel →
      getObjectLoop att hasErrs fuel i retry = .reRaise := by
  intro k
  induction k with
  | zero =>
    intro fuel i retry hatt hr hf
    cases fuel with
    | zero => omega
    | succ f =>
      have h9 : retry = 9 := by omega
      subst h9
      simp [getObjectLoop, hatt i]
  | succ k ih =>
    intro fuel i retry hatt hr hf
    cases fuel with
    | zero => omega
    | succ f =>
      have hlt : retry < 10 := by omega
      have hne : retry ≠ 9 := by omega
      simp only [getObjectLoop, if_pos hlt, hatt i, if_neg hne]
      exact ih f (i + 1) (retry + 1) hatt (by omega) (by omega)

theorem getObjectLoop_http5xx {β : Type} (att : Nat → Attempt β)
    (hasErrs : β → Bool) :
    ∀ (k fuel i retry : Nat),
      (∀ j, ∃ s, att j = .httpErr s ∧ ¬(400 ≤ s ∧ s < 500)) →
      retry + k = 10 → k + 1 ≤ fuel →
      getObjectLoop att hasErrs fuel i retry = .typeErr := by
  intro k
  induction k with
  | zero =>
    intro fuel i retry hatt hr hf
    cases fuel with
    | zero => omega
    | succ f =>
      have h10 : ¬(retry < 10) := by omega
      simp [getObjectLoop, if_neg h10]
  | succ k ih =>
    intro fuel i retry hatt hr hf
    cases fuel with
    | zero => omega
    | succ f =>
      have hlt : retry < 10 := by omega
      obtain ⟨s, hs, hns⟩ := hatt i
      simp only [getObjectLoop, if_pos hlt, hs, if_neg hns]
      exact ih f (i + 1) (retry + 1) hatt (by omega) (by omega)

/-- Claim C3, amended: when every attempt fails with a network-level
error or JSON-decode failure, exhausting the 10-attempt retry budget
re-raises the underlying transport error; but when every attempt fails
with a non-4xx HTTP error, the error is swallowed, the budget is
exhausted silently and the call then fails with a `TypeError` from
`'errors' in None` — not by re-raising the transport error. -/
theorem get_object_exhaustion_amended {β : Type} (att : Nat → Attempt β)
    (hasErrs : β → Bool) (fuel : Nat) (hfuel : 11 ≤ fuel) :
    ((∀ j, att j = .transient) →
      getObject att hasErrs fuel = .reRaise) ∧
    ((∀ j, ∃ s, att j = .httpErr s ∧ ¬(400 ≤ s ∧ s < 500)) →
      getObject att hasErrs fuel = .typeErr) := by
  constructor
  · intro hatt
    exact getObjectLoop_transient att hasErrs 9 fuel 0 0 hatt (by omega)
      (by omega)
  · intro hatt
    exact getObjectLoop_http5xx att hasErrs 10 fuel 0 0 hatt (by omega)
      (by omega)

/-- Witness for the amended C3 theorem: all-transient attempts re-raise
after 10 tries; all-HTTP-500 attempts end in the `TypeError` path. -/
theorem get_object_exhaustion_amended_witness :
    getObject (fun _ => (Attempt.transient : Attempt Unit))
        (fun _ => false) 12 = .reRaise ∧
    getObject (fun _ => (Attempt.httpErr 502 : Attempt Unit))
        (fun _ => false) 12 = .typeErr :=
  ⟨(get_object_exhaustion_amended (fun _ => Attempt.transient)
      (fun _ => false) 12 (by decide)).1 (fun _ => rfl),
   (get_object_exhaustion_amended (fun _ => Attempt.httpErr 502)
      (fun _ => false) 12 (by decide)).2
      (fun _ => ⟨502, rfl, by decide⟩)⟩

/-! ## C8 -/

/-- Claim C8 counterexample: `get_all_objects` re-reads `total` from
EVERY page, not only the first.  With `limit = 1` and pages reporting
totals `2, 3, 0`, the code fetches three pages and returns
`["a","b","c"]`, while stopping against the first page's total (spec
reading) would fetch only two pages and return `["a","b"]`. -/
theorem get_all_objects_total_counterexample :
    getAllObjects
        (fun o => if o = 0 then (⟨2, ["a"]⟩ : Page String)
                  else if o = 1 then ⟨3, ["b"]⟩ else ⟨0, ["c"]⟩) 1 10
      = some ["a", "b", "c"] ∧
    collectAllSpecFirstTotal
        (fun o => if o = 0 then (⟨2, ["a"]⟩ : Page String)
                  else if o = 1 then ⟨3, ["b"]⟩ else ⟨0, ["c"]⟩) 1
      = ["a", "b"] ∧
    (some ["a", "b", "c"] : Option (List String)) ≠ some ["a", "b"] := by
  decide

theorem pageLoop_chars {α : Type} (fetch : Nat → Page α) (limit : Nat) :
    ∀ (fuel k : Nat) (acc res : List α),
      pageLoop fetch limit fuel (k * limit) acc = some res →
      ∃ n, k ≤ n ∧
        res = acc ++ ((List.range (n + 1 - k)).map
          (fun j => (fetch ((k + j) * limit)).data)).flatten ∧
        (∀ i, k ≤ i → i < n → (i + 1) * limit < (fetch (i * limit)).total) ∧
        (fetch (n * limit)).total ≤ (n + 1) * limit := by
  intro fuel
  induction fuel with
  | zero =>
    intro k acc res h
    simp [pageLoop] at h
  | succ f ih =>
    intro k acc res h
    simp only [pageLoop] at h
    by_cases hstop : (fetch (k * limit)).total ≤ k * limit + limit
    · rw [if_pos hstop] at h
      refine ⟨k, le_refl k, ?_, ?_, ?_⟩
      · have h1 : k + 1 - k = 1 := by omega
        have h2 : List.range 1 = [0] := rfl
        rw [h1, h2]
        simp only [List.map_cons, List.map_nil,
          List.flatten_cons, List.flatten_nil, List.append_nil,
          Nat.add_zero]
        exact (Option.some_inj.1 h).symm
      · intro i h1 h2
        omega
      · have h2 : (k + 1) * limit = k * limit + limit := by ring
        rw [h2]
        exact hstop
    · rw [if_neg hstop] at h
      have hmul : k * limit + limit = (k + 1) * limit := by ring
      rw [hmul] at h
      obtain ⟨n, hkn, hres, hcond, hfin⟩ := ih (k + 1) _ _ h
      refine ⟨n, by omega, ?_, ?_, hfin⟩
      · rw [hres, List.append_assoc]
        congr 1
        have h1 : n + 1 - k = (n + 1 - (k + 1)) + 1 := by omega
        rw [h1, List.range_succ_eq_map]
        simp only [List.map_cons, List.flatten_cons, Nat.add_zero,
          List.map_map]
        congr 1
        congr 1
        apply List.map_congr_left
        intro j _
        simp only [Function.comp_apply, Nat.succ_eq_add_one]
        rw [show k + 1 + j = k + (j + 1) by omega]
      · intro i hki hin
        rcases Nat.eq_or_lt_of_le hki with he | hl
        · subst he
          omega
        · exact hcond i (by omega) hin

/-- Claim C8, amended: the returned list is the concatenation, in
server order, of the data arrays of the pages fetched strictly
sequentially at offsets `0, limit, 2·limit, …`; but fetching stops
exactly when the advanced offset reaches the total reported by the page
JUST fetched — `total` is re-read from every page, not fixed by the
first page's pagination metadata. -/
theorem get_all_objects_amended {α : Type} (fetch : Nat → Page α)
    (limit fuel : Nat) (res : List α)
    (h : getAllObjects fetch limit fuel = some res) :
    ∃ n, res = ((List.range (n + 1)).map
        (fun i => (fetch (i * limit)).data)).flatten ∧
      (∀ i, i < n → (i + 1) * limit < (fetch (i * limit)).total) ∧
      (fetch (n * limit)).total ≤ (n + 1) * limit := by
  unfold getAllObjects at h
  by_cases hl : limit = 0
  · rw [if_pos hl] at h
    cases h
  · rw [if_neg hl] at h
    have h0 : pageLoop fetch limit fuel (0 * limit) [] = some res := by
      simpa using h
    obtain ⟨n, _, hres, hcond, hfin⟩ :=
      pageLoop_chars fetch limit fuel 0 [] res h0
    refine ⟨n, by simpa using hres, fun i hi => hcond i (Nat.zero_le i) hi,
      hfin⟩

/-! ## C6 supporting lemmas -/

theorem dlookup_mergeFields {α : Type} (fields : List (String × α)) :
    ∀ (ext : List (String × α)), (dkeys fields).Nodup → ∀ k,
      dlookup (mergeFields ext fields) k =
        match dlookup fields k with
        | some v => some v
        | none => dlookup ext k := by
  induction fields with
  | nil => intro ext _ k; simp [mergeFields, dlookup]
  | cons kv rest ih =>
    intro ext hnodup k
    have hcons : (kv.1 :: dkeys rest).Nodup := hnodup
    have hknotin : kv.1 ∉ dkeys rest := (List.nodup_cons.1 hcons).1
    have hnodup' : (dkeys rest).Nodup := (List.nodup_cons.1 hcons).2
    have hstep : mergeFields ext (kv :: rest) =
        mergeFields (dinsert ext kv.1 kv.2) rest := rfl
    rw [hstep, ih (dinsert ext kv.1 kv.2) hnodup' k]
    by_cases hk : kv.1 = k
    · have hrest : dlookup rest k = none :=
        dlookup_eq_none rest k (hk ▸ hknotin)
      rw [hrest]
      simp only [dlookup, if_pos hk]
      rw [hk, dlookup_dinsert_self]
    · simp only [dlookup, if_neg hk]
      cases hr : dlookup rest k
      · simp only []
        exact dlookup_dinsert_ne ext k kv.1 kv.2 hk
      · rfl

theorem dlookup_foldl_dinsert {α β : Type} (key : β → String)
    (val : β → α) (l : List β) :
    ∀ (acc : List (String × α)), (l.map key).Nodup → ∀ k,
      dlookup (l.foldl (fun d x => dinsert d (key x) (val x)) acc) k =
        match l.find? (fun x => key x == k) with
        | some r => some (val r)
        | none => dlookup acc k := by
  induction l with
  | nil => intro acc _ k; simp [List.find?]
  | cons x rest ih =>
    intro acc hnodup k
    have hx : key x ∉ rest.map key := (List.nodup_cons.1 hnodup).1
    have hnodup' : (rest.map key).Nodup := (List.nodup_cons.1 hnodup).2
    simp only [List.foldl_cons]
    rw [ih (dinsert acc (key x) (val x)) hnodup' k]
    by_cases hk : key x = k
    · rw [List.find?_cons_of_pos _ (by simp [hk])]
      have hrest : rest.find? (fun y => key y == k) = none := by
        rw [List.find?_eq_none]
        intro y hy
        simp only [beq_iff_eq]
        intro hyk
        exact hx (hk ▸ hyk ▸ List.mem_map_of_mem key hy)
      rw [hrest]
      simp only []
      rw [hk, dlookup_dinsert_self]
    · rw [List.find?_cons_of_neg _ (by simp [hk])]
      cases hr : rest.find? (fun y => key y == k) <;>
        simp only [hr]
      · exact dlookup_dinsert_ne acc k (key x) (val x) hk

theorem dlookup_applyNew_skip {α : Type}
    (newMd : List (String × List (String × α))) :
    ∀ (pl : List (String × List (String × α))) (sid : String),
      sid ∉ dkeys newMd →
      dlookup (applyNewMetadata pl newMd) sid = dlookup pl sid := by
  induction newMd with
  | nil => intro pl sid _; rfl
  | cons sf rest ih =>
    intro pl sid h
    have h1 : sid ≠ sf.1 := by
      intro he
      exact h (by simp [dkeys, he])
    have h2 : sid ∉ dkeys rest := by
      intro hm
      exact h (by simp [dkeys] at hm ⊢; exact Or.inr hm)
    have hstep : applyNewMetadata pl (sf :: rest) =
        applyNewMetadata
          (dinsert pl sf.1 (mergeFields ((dlookup pl sf.1).getD []) sf.2))
          rest := rfl
    rw [hstep, ih _ sid h2]
    exact dlookup_dinsert_ne pl sid sf.1 _ (fun he => h1 he.symm)

theorem dlookup_applyNew {α : Type}
    (newMd : List (String × List (String × α))) :
    ∀ (pl : List (String × List (String × α))) (sid : String)
      (fields : List (String × α)), (dkeys newMd).Nodup →
      dlookup newMd sid = some fields →
      dlookup (applyNewMetadata pl newMd) sid =
        some (mergeFields ((dlookup pl sid).getD []) fields) := by
  induction newMd with
  | nil => intro pl sid fields _ h; simp [dlookup] at h
  | cons sf rest ih =>
    intro pl sid fields hnodup hf
    have hstep : applyNewMetadata pl (sf :: rest) =
        applyNewMetadata
          (dinsert pl sf.1 (mergeFields ((dlookup pl sf.1).getD []) sf.2))
          rest := rfl
    have hcons : (sf.1 :: dkeys rest).Nodup := hnodup
    have hx : sf.1 ∉ dkeys rest := (List.nodup_cons.1 hcons).1
    have hnodup' : (dkeys rest).Nodup := (List.nodup_cons.1 hcons).2
    by_cases hk : sf.1 = sid
    · have hfields : fields = sf.2 := by
        rw [dlookup, if_pos hk] at hf
        exact (Option.some_inj.1 hf).symm
      have hnotin : sid ∉ dkeys rest := hk ▸ hx
      rw [hstep, dlookup_applyNew_skip rest _ sid hnotin, hk,
        dlookup_dinsert_self, hfields]
    · have hf' : dlookup rest sid = some fields := by
        rw [dlookup, if_neg hk] at hf
        exact hf
      rw [hstep, ih _ sid fields hnodup' hf',
        dlookup_dinsert_ne pl sid sf.1 _ hk]

theorem dkeys_nodup_foldl_dinsert {α β : Type} (key : β → String)
    (F : List (String × α) → β → α) (l : List β) :
    ∀ (acc : List (String × α)), (dkeys acc).Nodup →
      (dkeys (l.foldl (fun d x => dinsert d (key x) (F d x)) acc)).Nodup := by
  induction l with
  | nil => intro acc h; exact h
  | cons x rest ih =>
    intro acc h
    simp only [List.foldl_cons]
    exact ih _ (dkeys_nodup_dinsert acc (key x) (F acc x) h)

theorem emit_filter_not_mem {α : Type} (ids : List (String × String))
    (newMd : List (String × List (String × α))) (obj sid : String) :
    ∀ (pl : List (String × List (String × α))), sid ∉ dkeys pl →
      requestsForSchema sid (emitRequests ids newMd obj pl) = [] := by
  intro pl
  induction pl with
  | nil => intro _; rfl
  | cons se rest ih =>
    intro h
    have h1 : ¬(se.1 == sid) = true := by
      simp only [beq_iff_eq]
      intro he
      exact h (by simp [dkeys, he])
    have h2 : sid ∉ dkeys rest := by
      intro hm
      exact h (by simp [dkeys] at hm ⊢; exact Or.inr hm)
    simp only [emitRequests, List.filterMap_cons]
    cases hm : dlookup ids se.1 with
    | none =>
      simpa [requestsForSchema, List.filter_cons, MDRequest.schemaId, h1,
        emitRequests] using ih h2
    | some m =>
      by_cases hs : (dlookup newMd se.1).isSome
      · simpa [hs, requestsForSchema, List.filter_cons, MDRequest.schemaId,
          h1, emitRequests] using ih h2
      · simpa [hs, requestsForSchema, emitRequests] using ih h2

theorem emit_filter_lookup {α : Type} (ids : List (String × String))
    (newMd : List (String × List (String × α))) (obj sid : String) :
    ∀ (pl : List (String × List (String × α)))
      (ext : List (String × α)), (dkeys pl).Nodup →
      dlookup pl sid = some ext →
      requestsForSchema sid (emitRequests ids newMd obj pl) =
        match dlookup ids sid with
        | some m =>
          if (dlookup newMd sid).isSome then
            [MDRequest.put m ⟨sid, obj, ext⟩]
          else []
        | none => [MDRequest.post ⟨sid, obj, ext⟩] := by
  intro pl
  induction pl with
  | nil => intro ext _ h; simp [dlookup] at h
  | cons se rest ih =>
    intro ext hnodup hl
    have hcons : (se.1 :: dkeys rest).Nodup := hnodup
    have hx : se.1 ∉ dkeys rest := (List.nodup_cons.1 hcons).1
    have hnodup' : (dkeys rest).Nodup := (List.nodup_cons.1 hcons).2
    by_cases hk : se.1 = sid
    · subst hk
      have hext : ext = se.2 := by
        rw [dlookup, if_pos rfl] at hl
        exact (Option.some_inj.1 hl).symm
      have htail := emit_filter_not_mem ids newMd obj se.1 rest hx
      subst hext
      simp only [emitRequests, List.filterMap_cons]
      cases hm : dlookup ids se.1 with
      | none =>
        simpa [requestsForSchema, List.filter_cons, MDRequest.schemaId,
          emitRequests] using htail
      | some m =>
        by_cases hs : (dlookup newMd se.1).isSome
        · simpa [hs, requestsForSchema, List.filter_cons,
            MDRequest.schemaId, emitRequests] using htail
        · simpa [hs, requestsForSchema, emitRequests] using htail
    · have hl' : dlookup rest sid = some ext := by
        rw [dlookup, if_neg hk] at hl
        exact hl
      have h1 : ¬(se.1 == sid) = true := by simpa using hk
      simp only [emitRequests, List.filterMap_cons]
      cases hm : dlookup ids se.1 with
      | none =>
        simpa [requestsForSchema, List.filter_cons, MDRequest.schemaId, h1,
          emitRequests] using ih ext hnodup' hl'
      | some m =>
        by_cases hs : (dlookup newMd se.1).isSome
        · simpa [hs, requestsForSchema, List.filter_cons,
            MDRequest.schemaId, h1, emitRequests] using ih ext hnodup' hl'
        · simpa [hs, requestsForSchema, emitRequests] using ih ext hnodup' hl'

/-! ## C6 -/

/-- Claim C6: per schema supplied in the update, `update_custom_metadata`
issues exactly one write for that schema: a PUT by the existing record's
id whose payload keeps every field of the existing record's value map
except those supplied in the update (which are overwritten) when a
record for the schema exists, and a POST containing exactly the supplied
fields when none exists.  The existing state is an explicit per-call
input (the source fetches it fresh via `get_object` on every call, with
no instance cache), and the PUT/POST choice depends only on that
schema's own record. -/
theorem update_custom_metadata_merge {α : Type}
    (assetS usageS obj sid : String) (existing : List (MDRecord α))
    (newMd : List (String × List (String × α)))
    (fields : List (String × α))
    (hf : dlookup newMd sid = some fields)
    (hnodupNew : (dkeys newMd).Nodup)
    (hnodupF : (dkeys fields).Nodup)
    (hnodupEx : ((customRecords assetS usageS existing).map
      (fun r => r.schema_id)).Nodup) :
    match (customRecords assetS usageS existing).find?
        (fun r => r.schema_id == sid) with
    | some r =>
        requestsForSchema sid
            (updateCustomMetadata assetS usageS obj existing newMd) =
          [.put r.id ⟨sid, obj, mergeFields r.ext fields⟩] ∧
        ∀ k, dlookup (mergeFields r.ext fields) k =
          match dlookup fields k with
          | some v => some v
          | none => dlookup r.ext k
    | none =>
        requestsForSchema sid
            (updateCustomMetadata assetS usageS obj existing newMd) =
          [.post ⟨sid, obj, mergeFields [] fields⟩] ∧
        ∀ k, dlookup (mergeFields [] fields) k = dlookup fields k := by
  have hpl0 := dlookup_foldl_dinsert (fun r : MDRecord α => r.schema_id)
    (fun r => r.ext) (customRecords assetS usageS existing) [] hnodupEx sid
  have hids := dlookup_foldl_dinsert (fun r : MDRecord α => r.schema_id)
    (fun r => r.id) (customRecords assetS usageS existing) [] hnodupEx sid
  have hnodupPl0 : (dkeys (payloadsOfExisting
      (customRecords assetS usageS existing))).Nodup := by
    exact dkeys_nodup_foldl_dinsert (fun r : MDRecord α => r.schema_id)
      (fun _ r => r.ext) (customRecords assetS usageS existing) []
      (by simp [dkeys])
  have hnodupPl : (dkeys (applyNewMetadata
      (payloadsOfExisting (customRecords assetS usageS existing))
      newMd)).Nodup := by
    exact dkeys_nodup_foldl_dinsert (fun sf : String × List (String × α) => sf.1)
      (fun pl sf => mergeFields ((dlookup pl sf.1).getD []) sf.2) newMd _
      hnodupPl0
  cases hfind : (customRecords assetS usageS existing).find?
      (fun r => r.schema_id == sid) with
  | some r =>
    have hpl0' : dlookup (payloadsOfExisting
        (customRecords assetS usageS existing)) sid = some r.ext := by
      rw [payloadsOfExisting, hpl0, hfind]
    have hids' : dlookup (metadataIdForSchema
        (customRecords assetS usageS existing)) sid = some r.id := by
      rw [metadataIdForSchema, hids, hfind]
    have hplk := dlookup_applyNew newMd
      (payloadsOfExisting (customRecords assetS usageS existing)) sid fields
      hnodupNew hf
    rw [hpl0'] at hplk
    simp only [Option.getD_some] at hplk
    constructor
    · rw [updateCustomMetadata,
        emit_filter_lookup _ newMd obj sid _ _ hnodupPl hplk, hids', hf]
      simp
    · intro k
      exact dlookup_mergeFields fields r.ext hnodupF k
  | none =>
    have hpl0' : dlookup (payloadsOfExisting
        (customRecords assetS usageS existing)) sid = none := by
      rw [payloadsOfExisting, hpl0, hfind]
      rfl
    have hids' : dlookup (metadataIdForSchema
        (customRecords assetS usageS existing)) sid = none := by
      rw [metadataIdForSchema, hids, hfind]
      rfl
    have hplk := dlookup_applyNew newMd
      (payloadsOfExisting (customRecords assetS usageS existing)) sid fields
      hnodupNew hf
    rw [hpl0'] at hplk
    simp only [Option.getD_none] at hplk
    constructor
    · rw [updateCustomMetadata,
        emit_filter_lookup _ newMd obj sid _ _ hnodupPl hplk, hids']
    · intro k
      rw [dlookup_mergeFields fields [] hnodupF k]
      cases hr : dlookup fields k
      · simp [dlookup]
      · rfl

/-- Witness for C6 at a concrete object holding one record for schema
`s1` with fields `a,b`; updating `b,c` yields one PUT by the record id
whose payload keeps `a`, overwrites `b` and adds `c`. -/
theorem update_custom_metadata_merge_witness :
    requestsForSchema "s1"
        (updateCustomMetadata "as" "us" "campaign:1"
          [⟨"md1", "s1", [("a", (1 : Nat)), ("b", 2)]⟩]
          [("s1", [("b", 9), ("c", 3)])]) =
      [.put "md1" ⟨"s1", "campaign:1", [("a", 1), ("b", 9), ("c", 3)]⟩] ∧
    dlookup (mergeFields [("a", (1 : Nat)), ("b", 2)] [("b", 9), ("c", 3)])
        "a" = some 1 ∧
    dlookup (mergeFields [("a", (1 : Nat)), ("b", 2)] [("b", 9), ("c", 3)])
        "b" = some 9 ∧
    dlookup (mergeFields [("a", (1 : Nat)), ("b", 2)] [("b", 9), ("c", 3)])
        "c" = some 3 := by
  have h := update_custom_metadata_merge "as" "us" "campaign:1" "s1"
    [⟨"md1", "s1", [("a", (1 : Nat)), ("b", 2)]⟩]
    [("s1", [("b", 9), ("c", 3)])] [("b", 9), ("c", 3)]
    (by decide) (by decide) (by decide) (by decide)
  obtain ⟨h1, h2⟩ := h
  refine ⟨h1.trans (by decide), (h2 "a").trans (by decide),
    (h2 "b").trans (by decide), (h2 "c").trans (by decide)⟩

/-- Witness for the amended C8 theorem at the three-page run with
re-read totals. -/
theorem get_all_objects_amended_witness :
    ∃ n, ["a", "b", "c"] = ((List.range (n + 1)).map
        (fun i => ((fun o => if o = 0 then (⟨2, ["a"]⟩ : Page String)
                   else if o = 1 then ⟨3, ["b"]⟩ else ⟨0, ["c"]⟩)
          (i * 1)).data)).flatten ∧
      (∀ i, i < n → (i + 1) * 1 <
        ((fun o => if o = 0 then (⟨2, ["a"]⟩ : Page String)
          else if o = 1 then ⟨3, ["b"]⟩ else ⟨0, ["c"]⟩) (i * 1)).total) ∧
      ((fun o => if o = 0 then (⟨2, ["a"]⟩ : Page String)
        else if o = 1 then ⟨3, ["b"]⟩ else ⟨0, ["c"]⟩) (n * 1)).total ≤
        (n + 1) * 1 :=
  get_all_objects_amended
    (fun o => if o = 0 then (⟨2, ["a"]⟩ : Page String)
     else if o = 1 then ⟨3, ["b"]⟩ else ⟨0, ["c"]⟩) 1 10 ["a", "b", "c"]
    (by decide)

/-! ## C1 -/

set_option maxRecDepth 10000 in
/-- Claim C1, failing input: `get_export` leaves the campaign loop as
soon as `len(all_data_rows) % 300 == 0`, i.e. right after the 300th row
is appended (a debugging `break` inside the progress-print block).  With
301 campaigns the export emits 300 rows, not 301; below the threshold
(2 campaigns) the row count does equal the campaign count as the claim
states. -/
theorem export_row_count_break_at_300 :
    (getExport (List.replicate 301
      (⟨"c1", [("Campaign ID", some "c1")], []⟩ : Camp))).2.length = 300 ∧
    (List.replicate 301
      (⟨"c1", [("Campaign ID", some "c1")], []⟩ : Camp)).length = 301 ∧
    (getExport [(⟨"a", [("Campaign ID", some "a")], []⟩ : Camp),
      ⟨"b", [("Campaign ID", some "b")], []⟩]).2.length = 2 := by
  refine ⟨by decide, by decide, by decide⟩

/-! ## C7 supporting lemmas -/

theorem mem_addLabels (md : List (String × Option String)) :
    ∀ (headers : List String) (k : String),
      k ∈ addLabels headers md ↔ k ∈ headers ∨ k ∈ dkeys md := by
  induction md with
  | nil => intro headers k; simp [addLabels, dkeys]
  | cons kv rest ih =>
    intro headers k
    have hstep : addLabels headers (kv :: rest) =
        addLabels (if kv.1 ∈ headers then headers else headers ++ [kv.1])
          rest := rfl
    rw [hstep, ih]
    by_cases hm : kv.1 ∈ headers
    · rw [if_pos hm]
      simp only [dkeys, List.map_cons, List.mem_cons]
      constructor
      · rintro (h1 | h1)
        · exact Or.inl h1
        · exact Or.inr (Or.inr h1)
      · rintro (h1 | h1 | h1)
        · exact Or.inl h1
        · exact Or.inl (h1 ▸ hm)
        · exact Or.inr h1
    · rw [if_neg hm]
      simp only [dkeys, List.map_cons, List.mem_cons, List.mem_append,
        List.mem_singleton]
      tauto

theorem mem_dkeys_rowfold (md : List (String × Option String)) :
    ∀ (acc : List (String × Option String)) (k : String),
      k ∈ dkeys (md.foldl (fun d kv => dinsert d kv.1 kv.2) acc) ↔
        k ∈ dkeys acc ∨ k ∈ dkeys md := by
  induction md with
  | nil => intro acc k; simp [dkeys]
  | cons kv rest ih =>
    intro acc k
    simp only [List.foldl_cons]
    rw [ih (dinsert acc kv.1 kv.2) k, mem_dkeys_dinsert]
    simp only [dkeys, List.map_cons, List.mem_cons]
    tauto

theorem mem_insertSorted {α : Type} (key : α → String) (x : α) :
    ∀ (l : List α) (y : α), y ∈ insertSorted key x l ↔ y = x ∨ y ∈ l := by
  intro l
  induction l with
  | nil => intro y; simp [insertSorted]
  | cons z rest ih =>
    intro y
    simp only [insertSorted]
    by_cases hlt : pyStrLt (key z) (key x) = true
    · rw [if_pos hlt]
      simp only [List.mem_cons, ih]
      tauto
    · rw [if_neg hlt]
      simp only [List.mem_cons]

theorem mem_sortByKeyStr {α : Type} (key : α → String) :
    ∀ (l : List α) (y : α), y ∈ sortByKeyStr key l ↔ y ∈ l := by
  intro l
  induction l with
  | nil => intro y; simp [sortByKeyStr]
  | cons x rest ih =>
    intro y
    simp only [sortByKeyStr]
    constructor
    · intro hy
      rcases (mem_insertSorted key x (sortByKeyStr key rest) y).1 hy with
        h | h
      · simp [h]
      · simp [List.mem_cons, (ih y).1 h]
    · intro hy
      rcases List.mem_cons.1 hy with h | h
      · exact (mem_insertSorted key x _ y).2 (Or.inl h)
      · exact (mem_insertSorted key x _ y).2 (Or.inr ((ih y).2 h))

theorem mem_headerForLabels_iff (k : String) :
    k ∈ headerForLabels ↔ k ∈ stdHeader := by
  simp only [headerForLabels, stdHeader, List.mem_cons,
    List.not_mem_nil, or_false]
  tauto

theorem exportLoop_chars :
    ∀ (camps : List Camp)
      (dicts0 : List (List (String × Option String)))
      (hdr0 : List String),
      ∃ P : List Camp, (∀ c ∈ P, c ∈ camps) ∧
        (exportLoop camps dicts0 hdr0).1 = dicts0 ++ P.map rowOf ∧
        (∀ k, k ∈ (exportLoop camps dicts0 hdr0).2 ↔
          k ∈ hdr0 ∨ ∃ c ∈ P, k ∈ dkeys (poppedMd c)) := by
  intro camps
  induction camps with
  | nil =>
    intro dicts0 hdr0
    exact ⟨[], by simp, by simp [exportLoop], by simp [exportLoop]⟩
  | cons c rest ih =>
    intro dicts0 hdr0
    by_cases hb : (dicts0 ++ [rowOf c]).length % 300 = 0
    · refine ⟨[c], by simp, ?_, ?_⟩
      · simp only [exportLoop]
        rw [if_pos hb]
        simp
      · intro k
        simp only [exportLoop]
        rw [if_pos hb]
        simpa using mem_addLabels (poppedMd c) hdr0 k
    · obtain ⟨P, hsub, h1, h2⟩ :=
        ih (dicts0 ++ [rowOf c]) (addLabels hdr0 (poppedMd c))
      refine ⟨c :: P, ?_, ?_, ?_⟩
      · intro c' hc'
        rcases List.mem_cons.1 hc' with h | h
        · exact h ▸ List.mem_cons_self c rest
        · exact List.mem_cons_of_mem c (hsub c' h)
      · simp only [exportLoop]
        rw [if_neg hb, h1]
        simp [List.append_assoc]
      · intro k
        simp only [exportLoop]
        rw [if_neg hb, h2 k, mem_addLabels]
        constructor
        · rintro ((h | h) | ⟨c', hc', hk⟩)
          · exact Or.inl h
          · exact Or.inr ⟨c, List.mem_cons_self c P, h⟩
          · exact Or.inr ⟨c', List.mem_cons_of_mem c hc', hk⟩
        · rintro (h | ⟨c', hc', hk⟩)
          · exact Or.inl (Or.inl h)
          · rcases List.mem_cons.1 hc' with h3 | h3
            · exact Or.inl (Or.inr (h3 ▸ hk))
            · exact Or.inr ⟨c', h3, hk⟩

/-! ## C7 -/

/-- Claim C7: the output column list of an export is the fixed standard
labels together with exactly the custom-metadata labels occurring in
some exported row (the union across rows, not the intersection); the
full column list is fixed before any row is serialised, so every
serialised row (`campaign_data`) has one cell per column and a row
lacking a column's key renders an empty (`none`) cell there.  The
hypothesis states that each campaign's formatted standard dictionary
carries the `header_for` labels, as built by the field loop of
`get_export`. -/
theorem export_columns_union (camps : List Camp)
    (hstd : ∀ c ∈ camps, dkeys c.std = headerForLabels) :
    (∀ k, k ∈ (getExport camps).1 ↔
      k ∈ stdHeader ∨ ∃ dd ∈ (getExport camps).2, k ∈ dkeys dd) ∧
    (∀ (i : Nat) (row : List (Option String)),
      (campaignData (getExport camps).1 (getExport camps).2).get? i =
        some row → row.length = (getExport camps).1.length) ∧
    (∀ (i j : Nat) (dd : List (String × Option String)) (h : String),
      (getExport camps).2.get? i = some dd →
      (getExport camps).1.get? j = some h → h ∉ dkeys dd →
      ((campaignData (getExport camps).1 (getExport camps).2).get? i).bind
        (fun row => row.get? j) = some none) := by
  obtain ⟨P, hsub, h1, h2⟩ := exportLoop_chars camps [] stdHeader
  have hds : (getExport camps).2 =
      sortByKeyStr rowSortKey (exportLoop camps [] stdHeader).1 := rfl
  have hhd : (getExport camps).1 = (exportLoop camps [] stdHeader).2 := rfl
  refine ⟨?_, ?_, ?_⟩
  · intro k
    rw [hhd, h2 k, hds, h1]
    simp only [List.nil_append]
    constructor
    · rintro (h | ⟨c, hc, hk⟩)
      · exact Or.inl h
      · refine Or.inr ⟨rowOf c, ?_, ?_⟩
        · rw [mem_sortByKeyStr]
          exact List.mem_map_of_mem rowOf hc
        · rw [rowOf, mem_dkeys_rowfold]
          exact Or.inr hk
    · rintro (h | ⟨dd, hdd, hk⟩)
      · exact Or.inl h
      · rw [mem_sortByKeyStr] at hdd
        obtain ⟨c, hc, hcdd⟩ := List.mem_map.1 hdd
        rw [← hcdd, rowOf, mem_dkeys_rowfold] at hk
        rcases hk with hk | hk
        · rw [hstd c (hsub c hc)] at hk
          exact Or.inl ((mem_headerForLabels_iff k).1 hk)
        · exact Or.inr ⟨c, hc, hk⟩
  · intro i row hrow
    rw [campaignData, List.get?_map] at hrow
    cases hdi : ((getExport camps).2.get? i) with
    | none => rw [hdi] at hrow; cases hrow
    | some dd =>
      rw [hdi] at hrow
      have hrow' : some ((getExport camps).1.map
          (fun y => (dlookup dd y).getD none)) = some row := hrow
      rw [← Option.some_inj.1 hrow']
      exact List.length_map _ _
  · intro i j dd h hdi hhj hnot
    rw [campaignData, List.get?_map, hdi]
    show ((getExport camps).1.map
      (fun y => (dlookup dd y).getD none)).get? j = some none
    rw [List.get?_map, hhj]
    show some ((dlookup dd h).getD none) = some none
    rw [dlookup_eq_none dd h hnot]
    rfl

/-- Witness for C7: two campaigns, only the first carrying the custom
label `"Custom: X"`; the label becomes a column and the second
campaign's serialised row renders an empty cell in that column. -/
theorem export_columns_union_witness :
    "Custom: X" ∈ (getExport
      [⟨"a",
        [("Campaign ID", some "a"), ("Title", none), ("Description", none),
         ("Terms", none), ("Topics", none), ("License ID", none),
         ("Start At", none), ("End At", none), ("Platforms", none),
         ("Budget", none), ("Thumbnail Asset", none), ("Created At", none),
         ("Updated At", none), ("Parent Campaign ID", none)],
        [("Custom: X", some "v")]⟩,
       ⟨"b",
        [("Campaign ID", some "b"), ("Title", none), ("Description", none),
         ("Terms", none), ("Topics", none), ("License ID", none),
         ("Start At", none), ("End At", none), ("Platforms", none),
         ("Budget", none), ("Thumbnail Asset", none), ("Created At", none),
         ("Updated At", none), ("Parent Campaign ID", none)],
        []⟩]).1 ∧
    ((campaignData
        (getExport
          [⟨"a",
            [("Campaign ID", some "a"), ("Title", none),
             ("Description", none), ("Terms", none), ("Topics", none),
             ("License ID", none), ("Start At", none), ("End At", none),
             ("Platforms", none), ("Budget", none),
             ("Thumbnail Asset", none), ("Created At", none),
             ("Updated At", none), ("Parent Campaign ID", none)],
            [("Custom: X", some "v")]⟩,
           ⟨"b",
            [("Campaign ID", some "b"), ("Title", none),
             ("Description", none), ("Terms", none), ("Topics", none),
             ("License ID", none), ("Start At", none), ("End At", none),
             ("Platforms", none), ("Budget", none),
             ("Thumbnail Asset", none), ("Created At", none),
             ("Updated At", none), ("Parent Campaign ID", none)],
            []⟩]).1
        (getExport
          [⟨"a",
            [("Campaign ID", some "a"), ("Title", none),
             ("Description", none), ("Terms", none), ("Topics", none),
             ("License ID", none), ("Start At", none), ("End At", none),
             ("Platforms", none), ("Budget", none),
             ("Thumbnail Asset", none), ("Created At", none),
             ("Updated At", none), ("Parent Campaign ID", none)],
            [("Custom: X", some "v")]⟩,
           ⟨"b",
            [("Campaign ID", some "b"), ("Title", none),
             ("Description", none), ("Terms", none), ("Topics", none),
             ("License ID", none), ("Start At", none), ("End At", none),
             ("Platforms", none), ("Budget", none),
             ("Thumbnail Asset", none), ("Created At", none),
             ("Updated At", none), ("Parent Campaign ID", none)],
            []⟩]).2).get? 1).bind
      (fun row => row.get? 14) = some none := by
  have h := export_columns_union
    [⟨"a",
      [("Campaign ID", some "a"), ("Title", none), ("Description", none),
       ("Terms", none), ("Topics", none), ("License ID", none),
       ("Start At", none), ("End At", none), ("Platforms", none),
       ("Budget", none), ("Thumbnail Asset", none), ("Created At", none),
       ("Updated At", none), ("Parent Campaign ID", none)],
      [("Custom: X", some "v")]⟩,
     ⟨"b",
      [("Campaign ID", some "b"), ("Title", none), ("Description", none),
       ("Terms", none), ("Topics", none), ("License ID", none),
       ("Start At", none), ("End At", none), ("Platforms", none),
       ("Budget", none), ("Thumbnail Asset", none), ("Created At", none),
       ("Updated At", none), ("Parent Campaign ID", none)],
      []⟩] (by decide)
  refine ⟨(h.1 "Custom: X").2 (by decide), ?_⟩
  exact h.2.2 1 14
    (rowOf ⟨"b",
      [("Campaign ID", some "b"), ("Title", none), ("Description", none),
       ("Terms", none), ("Topics", none), ("License ID", none),
       ("Start At", none), ("End At", none), ("Platforms", none),
       ("Budget", none), ("Thumbnail Asset", none), ("Created At", none),
       ("Updated At", none), ("Parent Campaign ID", none)],
      []⟩) "Custom: X" (by decide) (by decide) (by decide)

end Percolate
